import Mathlib

/-!
Verification development for the blitzdb SQL query-result reconstruction
engine (`blitzdb/backends/sql/queryset.py`) and the backend base class
(`blitzdb/backends/base.py`).

Shallow embedding conventions:
* a result-set row (SQLAlchemy row proxy) is a total assignment of values
  to physical column labels, `Row V := String → V`;
* Python dicts that preserve insertion order (keymaps, unpacked logical
  dicts) are association lists;
* Python exceptions are `Option`/`Except` failures;
* the external collaborators (SQL engine, serializer) are modelled at
  their interfaces: the rows delivered by the engine are an explicit list,
  the deserializer is the identity on unpacked dicts.
-/

set_option maxHeartbeats 1600000
set_option linter.unusedVariables false

namespace BlitzDB

/-- A row of the flat SQL result set: a total assignment of values to
physical output-column labels (row access `row[label]` in the source). -/
abbrev Row (V : Type) := String → V

/-- A value stored in a keymap (the Python code overloads a plain dict):
either a physical column label (a string leaf), the boolean marker `True`
stored under the reserved keys `__foreign_key` / `__many_to_many`, or a
nested keymap for a relationship branch (a nested dict). -/
inductive KVal (V : Type) where
  | label : String → KVal V
  | mark : KVal V
  | sub : List (String × KVal V) → KVal V

/-- A keymap: an insertion-ordered mapping from logical field name to a
`KVal` (the Python dict built by `update_keymap`). -/
abbrev Keymap (V : Type) := List (String × KVal V)

/-- A value of an unpacked logical dict: a copied column value, a nested
dict (foreign-key branch), or a list of nested dicts (many-to-many). -/
inductive UVal (V : Type) where
  | val : V → UVal V
  | obj : List (String × UVal V) → UVal V
  | objs : List (List (String × UVal V)) → UVal V

/-- An unpacked logical dict, in key insertion order. -/
abbrev Obj (V : Type) := List (String × UVal V)

/-- The rows remaining after a nested unpacking step.  The source pops
rows from the front of the shared list only under a `len(objects) > 1`
guard, so the remaining list is never longer than the input and is
nonempty whenever the input was.  Carrying these two facts is what makes
the mutual recursion below terminate. -/
def Rem (V : Type) (objects : List (Row V)) : Type :=
  { l : List (Row V) // l.length ≤ objects.length ∧ (objects ≠ [] → l ≠ []) }

variable {V : Type}

mutual

/-- The iteration over `keymap.items()` inside `unpack_single_object`
(queryset.py lines 250-259), threading the destructively-popped row list
explicitly.  `obj` is the first row captured at entry (`obj = objects[0]`,
held by reference, so it is unaffected by later pops), `km` is the keymap
of the current level (needed for the `keymap['pk']` lookup of the
many-to-many case), `entries` is the suffix of entries still to process.

* a key `__foreign_key` / `__many_to_many` is skipped;
* a nested dict containing the key `__many_to_many` is unpacked by
  `unpack_many_to_many`, keyed on this level's `pk` label;
* any other nested dict is unpacked by a nested `unpack_single_object`;
* otherwise the row's value at the labelled column is copied.

A `mark` under a non-reserved key would make the source index the row
with the boolean `True`; that is modelled as a failure (it cannot occur
in keymaps built by `get_objects`). -/
def unpackFields [DecidableEq V] (obj : Row V) (km : Keymap V)
    (entries : List (String × KVal V)) (objects : List (Row V)) :
    Option (Obj V × Rem V objects) :=
  match entries with
  | [] => some ([], ⟨objects, le_refl _, fun h => h⟩)
  | (key, v) :: rest =>
    if key = "__foreign_key" ∨ key = "__many_to_many" then
      unpackFields obj km rest objects
    else
      match v with
      | KVal.mark => none
      | KVal.label s =>
        match unpackFields obj km rest objects with
        | none => none
        | some (d, l) => some ((key, UVal.val (obj s)) :: d, l)
      | KVal.sub m =>
        if (m.lookup "__many_to_many").isSome then
          match km.lookup "pk" with
          | some (KVal.label pkLabel) =>
            match unpackMany objects m pkLabel (obj pkLabel) with
            | none => none
            | some (lst, ⟨l₁, h₁⟩) =>
              match unpackFields obj km rest l₁ with
              | none => none
              | some (d, ⟨l₂, h₂⟩) =>
                some ((key, UVal.objs lst) :: d,
                  ⟨l₂, le_trans h₂.1 h₁.1, fun h => h₂.2 (h₁.2 h)⟩)
          | _ => none
        else
          match unpackSingleNested objects m with
          | none => none
          | some (o, ⟨l₁, h₁⟩) =>
            match unpackFields obj km rest l₁ with
            | none => none
            | some (d, ⟨l₂, h₂⟩) =>
              some ((key, UVal.obj o) :: d,
                ⟨l₂, le_trans h₂.1 h₁.1, fun h => h₂.2 (h₁.2 h)⟩)
termination_by (objects.length, sizeOf entries, 0)
decreasing_by
  all_goals simp_wf
  all_goals
    first
    | exact Prod.Lex.right _ (Prod.Lex.left _ _ (by omega))
    | exact Prod.Lex.right _ (Prod.Lex.right _ (by omega))
    | (rcases lt_or_eq_of_le h₁.1 with hlt | heq
       · exact Prod.Lex.left _ _ hlt
       · rw [heq]
         exact Prod.Lex.right _ (Prod.Lex.left _ _ (by omega)))

/-- `unpack_single_object(objects, keymap, nested=True)` (queryset.py
lines 237-259 without the final pop): takes the first remaining row and
processes every keymap entry.  Fails (Python `IndexError`) when the row
list is empty. -/
def unpackSingleNested [DecidableEq V] (objects : List (Row V))
    (km : Keymap V) : Option (Obj V × Rem V objects) :=
  match objects with
  | [] => none
  | obj :: rest => unpackFields obj km km (obj :: rest)
termination_by (objects.length, sizeOf km, 1)
decreasing_by
  simp_wf
  exact Prod.Lex.right _ (Prod.Lex.right _ (by omega))

/-- `unpack_many_to_many` (queryset.py lines 218-235): repeatedly unpack
a nested object from the front of the row list; while the next row's
value at the parent's primary-key label equals the parent's primary-key
value, pop the consumed row and repeat. -/
def unpackMany [DecidableEq V] (objects : List (Row V)) (km : Keymap V)
    (pkKey : String) (pkVal : V) : Option (List (Obj V) × Rem V objects) :=
  match unpackSingleNested objects km with
  | none => none
  | some (o, lrem) =>
    match hh : lrem.val with
    | r0 :: r1 :: restl =>
      if r1 pkKey = pkVal then
        match unpackMany (r1 :: restl) km pkKey pkVal with
        | none => none
        | some (os, l₂) =>
          some (o :: os,
            ⟨l₂.val,
             by
               have h1 := lrem.property.1
               have h2 := l₂.property.1
               rw [hh] at h1
               simp only [List.length_cons] at h1 h2 ⊢
               omega,
             fun _ => l₂.property.2 (by simp)⟩)
      else some ([o], lrem)
    | _ => some ([o], lrem)
termination_by (objects.length, sizeOf km, 2)
decreasing_by
  all_goals simp_wf
  all_goals
    first
    | exact Prod.Lex.right _ (Prod.Lex.right _ (by omega))
    | (have h1 := lrem.property.1
       rw [hh] at h1
       simp only [List.length_cons] at h1
       exact Prod.Lex.left _ _ (by omega))

end

/-- `unpack_single_object(objects, keymap, nested)` (queryset.py lines
237-262), with the subtype bookkeeping of the mutual block projected
away: unpack one object from the front of the row list; if the call is
not nested, pop the (possibly advanced) front row before returning. -/
def unpack_single_object [DecidableEq V] (objects : List (Row V))
    (km : Keymap V) (nested : Bool) : Option (Obj V × List (Row V)) :=
  match unpackSingleNested objects km with
  | none => none
  | some (d, l) => some (d, if nested then l.val else l.val.tail)

/-- `unpack_many_to_many` (queryset.py lines 218-235) with the subtype
bookkeeping projected away. -/
def unpack_many_to_many [DecidableEq V] (objects : List (Row V))
    (km : Keymap V) (pkKey : String) (pkVal : V) :
    Option (List (Obj V) × List (Row V)) :=
  match unpackMany objects km pkKey pkVal with
  | none => none
  | some (os, l) => some (os, l.val)

/-- The root folding loop of `get_objects` (queryset.py lines 264-268):
`while objects: self.objects.append(unpack_single_object(objects, keymap))`.
Each iteration is a top-level (non-nested) `unpack_single_object`, which
ends by popping the front row. -/
def get_objects_fold [DecidableEq V] (objects : List (Row V))
    (km : Keymap V) : Option (List (Obj V)) :=
  match objects with
  | [] => some []
  | r :: rs =>
    match unpackSingleNested (r :: rs) km with
    | none => none
    | some (d, ⟨l, hl⟩) =>
      match get_objects_fold l.tail km with
      | none => none
      | some ds => some (d :: ds)
termination_by objects.length
decreasing_by
  simp_wf
  have h2 := hl.2 (by simp)
  have h1 := hl.1
  cases l with
  | nil => exact absurd rfl h2
  | cons a as =>
    simp only [List.length_cons, List.tail_cons] at h1 ⊢
    omega

/-- The keymap-entry iteration of `unpack_single_object` with the subtype
bookkeeping projected away (used to state unfolding lemmas). -/
def unpack_fields_run [DecidableEq V] (obj : Row V) (km : Keymap V)
    (entries : List (String × KVal V)) (objects : List (Row V)) :
    Option (Obj V × List (Row V)) :=
  match unpackFields obj km entries objects with
  | none => none
  | some (d, l) => some (d, l.val)

theorem unpackFields_of_run_some [DecidableEq V] {obj : Row V}
    {km : Keymap V} {entries : List (String × KVal V)}
    {objects : List (Row V)} {d : Obj V} {l' : List (Row V)}
    (h : unpack_fields_run obj km entries objects = some (d, l')) :
    ∃ hp, unpackFields obj km entries objects = some (d, ⟨l', hp⟩) := by
  unfold unpack_fields_run at h
  rcases hs : unpackFields obj km entries objects with _ | ⟨d0, lv, lp⟩
  · rw [hs] at h
    exact absurd h (by simp)
  · rw [hs] at h
    simp only [Option.some.injEq, Prod.mk.injEq] at h
    obtain ⟨hd, hl⟩ := h
    subst hd
    subst hl
    exact ⟨lp, rfl⟩

theorem unpackSingleNested_of_uso_true [DecidableEq V]
    {objects : List (Row V)} {km : Keymap V} {o : Obj V} {l' : List (Row V)}
    (h : unpack_single_object objects km true = some (o, l')) :
    ∃ hp, unpackSingleNested objects km = some (o, ⟨l', hp⟩) := by
  unfold unpack_single_object at h
  rcases hs : unpackSingleNested objects km with _ | ⟨d0, lv, lp⟩
  · rw [hs] at h
    exact absurd h (by simp)
  · rw [hs] at h
    simp only [if_true, Option.some.injEq, Prod.mk.injEq] at h
    obtain ⟨hd, hl⟩ := h
    subst hd
    subst hl
    exact ⟨lp, rfl⟩

theorem unpackMany_of_umm_some [DecidableEq V]
    {objects : List (Row V)} {km : Keymap V} {pkKey : String} {pkVal : V}
    {os : List (Obj V)} {l' : List (Row V)}
    (h : unpack_many_to_many objects km pkKey pkVal = some (os, l')) :
    ∃ hp, unpackMany objects km pkKey pkVal = some (os, ⟨l', hp⟩) := by
  unfold unpack_many_to_many at h
  rcases hs : unpackMany objects km pkKey pkVal with _ | ⟨o0, lv, lp⟩
  · rw [hs] at h
    exact absurd h (by simp)
  · rw [hs] at h
    simp only [Option.some.injEq, Prod.mk.injEq] at h
    obtain ⟨hd, hl⟩ := h
    subst hd
    subst hl
    exact ⟨lp, rfl⟩

/-- Processing an empty keymap suffix leaves the row list untouched and
produces the empty dict. -/
theorem run_nil [DecidableEq V] (obj : Row V) (km : Keymap V)
    (objects : List (Row V)) :
    unpack_fields_run obj km [] objects = some ([], objects) := by
  unfold unpack_fields_run
  rw [unpackFields.eq_def]

/-- The reserved marker keys `__foreign_key` and `__many_to_many` are
skipped by the unpacking iteration. -/
theorem run_skip [DecidableEq V] (obj : Row V) (km : Keymap V)
    (key : String) (v : KVal V) (rest : List (String × KVal V))
    (objects : List (Row V))
    (hk : key = "__foreign_key" ∨ key = "__many_to_many") :
    unpack_fields_run obj km ((key, v) :: rest) objects =
      unpack_fields_run obj km rest objects := by
  unfold unpack_fields_run
  rw [unpackFields.eq_def]
  simp [hk]

/-- A leaf keymap entry copies the captured first row's value at the
labelled column into the logical dict. -/
theorem run_label [DecidableEq V] (obj : Row V) (km : Keymap V)
    (key s : String) (rest : List (String × KVal V))
    (objects : List (Row V))
    (hk : ¬(key = "__foreign_key" ∨ key = "__many_to_many"))
    (d : Obj V) (l' : List (Row V))
    (h : unpack_fields_run obj km rest objects = some (d, l')) :
    unpack_fields_run obj km ((key, KVal.label s) :: rest) objects =
      some ((key, UVal.val (obj s)) :: d, l') := by
  obtain ⟨hp, hi⟩ := unpackFields_of_run_some h
  unfold unpack_fields_run
  rw [unpackFields.eq_def]
  simp [hk, hi]

/-- A nested keymap carrying the `__many_to_many` marker is delegated to
`unpack_many_to_many`, keyed on the current level's `pk` label and the
captured first row's value at that label. -/
theorem run_m2m [DecidableEq V] (obj : Row V) (km : Keymap V)
    (key : String) (m : Keymap V) (rest : List (String × KVal V))
    (objects : List (Row V)) (pkL : String)
    (hk : ¬(key = "__foreign_key" ∨ key = "__many_to_many"))
    (hm : (m.lookup "__many_to_many").isSome)
    (hpk : km.lookup "pk" = some (KVal.label pkL))
    (lst : List (Obj V)) (l₁ : List (Row V))
    (h1 : unpack_many_to_many objects m pkL (obj pkL) = some (lst, l₁))
    (d : Obj V) (l₂ : List (Row V))
    (h2 : unpack_fields_run obj km rest l₁ = some (d, l₂)) :
    unpack_fields_run obj km ((key, KVal.sub m) :: rest) objects =
      some ((key, UVal.objs lst) :: d, l₂) := by
  obtain ⟨p1, hi1⟩ := unpackMany_of_umm_some h1
  obtain ⟨p2, hi2⟩ := unpackFields_of_run_some h2
  unfold unpack_fields_run
  rw [unpackFields.eq_def]
  simp [hk, hm, hpk, hi1, hi2]

/-- `unpack_single_object` on an empty row list fails (`objects[0]`). -/
theorem uso_nil [DecidableEq V] (km : Keymap V) (nested : Bool) :
    unpack_single_object ([] : List (Row V)) km nested = none := by
  unfold unpack_single_object
  rw [unpackSingleNested.eq_def]

/-- `unpack_single_object` on a nonempty row list processes the keymap
entries against the captured first row and, when the call is top-level,
pops the front of the (possibly advanced) row list. -/
theorem uso_cons [DecidableEq V] (r : Row V) (rs : List (Row V))
    (km : Keymap V) (nested : Bool) (d : Obj V) (l' : List (Row V))
    (h : unpack_fields_run r km km (r :: rs) = some (d, l')) :
    unpack_single_object (r :: rs) km nested =
      some (d, if nested then l' else l'.tail) := by
  obtain ⟨hp, hi⟩ := unpackFields_of_run_some h
  unfold unpack_single_object
  rw [unpackSingleNested.eq_def]
  simp only [hi]

theorem unpackSingleNested_of_uso_false [DecidableEq V]
    {objects : List (Row V)} {km : Keymap V} {d : Obj V} {l' : List (Row V)}
    (h : unpack_single_object objects km false = some (d, l')) :
    ∃ l hp, unpackSingleNested objects km = some (d, ⟨l, hp⟩) ∧ l' = l.tail := by
  unfold unpack_single_object at h
  rcases hs : unpackSingleNested objects km with _ | ⟨d0, lv, lp⟩
  · rw [hs] at h
    exact absurd h (by simp)
  · rw [hs] at h
    simp only [Bool.false_eq_true, if_false, Option.some.injEq, Prod.mk.injEq] at h
    obtain ⟨hd, hl⟩ := h
    subst hd
    exact ⟨lv, lp, rfl, hl.symm⟩

/-- A successful top-level (non-nested) `unpack_single_object` removes at
least one row from the front of the row set. -/
theorem uso_false_shrinks [DecidableEq V] {objects : List (Row V)}
    {km : Keymap V} {d : Obj V} {rest : List (Row V)}
    (h : unpack_single_object objects km false = some (d, rest)) :
    rest.length < objects.length := by
  obtain ⟨l, hp, hi, hrest⟩ := unpackSingleNested_of_uso_false h
  cases objects with
  | nil =>
    rw [unpackSingleNested.eq_def] at hi
    exact absurd hi (by simp)
  | cons r rs =>
    have hne := hp.2 (by simp)
    have hle := hp.1
    cases l with
    | nil => exact absurd rfl hne
    | cons a as =>
      subst hrest
      simp only [List.length_cons, List.tail_cons] at hle ⊢
      omega

/-- The loop of `unpack_many_to_many` stops when a single row remains. -/
theorem umm_last [DecidableEq V] (objects : List (Row V)) (km : Keymap V)
    (pkKey : String) (pkVal : V) (o : Obj V) (r0 : Row V)
    (h : unpack_single_object objects km true = some (o, [r0])) :
    unpack_many_to_many objects km pkKey pkVal = some ([o], [r0]) := by
  obtain ⟨hp, hi⟩ := unpackSingleNested_of_uso_true h
  unfold unpack_many_to_many
  rw [unpackMany.eq_def]
  simp [hi]

/-- The loop of `unpack_many_to_many` stops when the next row's value at
the parent's primary-key label differs from the parent's value. -/
theorem umm_stop [DecidableEq V] (objects : List (Row V)) (km : Keymap V)
    (pkKey : String) (pkVal : V) (o : Obj V) (r0 r1 : Row V)
    (restl : List (Row V))
    (h : unpack_single_object objects km true = some (o, r0 :: r1 :: restl))
    (hne : ¬ r1 pkKey = pkVal) :
    unpack_many_to_many objects km pkKey pkVal =
      some ([o], r0 :: r1 :: restl) := by
  obtain ⟨hp, hi⟩ := unpackSingleNested_of_uso_true h
  unfold unpack_many_to_many
  rw [unpackMany.eq_def]
  simp [hi, hne]

/-- The loop of `unpack_many_to_many` pops the consumed row and repeats
when the next row still carries the parent's primary-key value. -/
theorem umm_cont [DecidableEq V] (objects : List (Row V)) (km : Keymap V)
    (pkKey : String) (pkVal : V) (o : Obj V) (r0 r1 : Row V)
    (restl : List (Row V)) (os : List (Obj V)) (l₂ : List (Row V))
    (h : unpack_single_object objects km true = some (o, r0 :: r1 :: restl))
    (heq : r1 pkKey = pkVal)
    (h2 : unpack_many_to_many (r1 :: restl) km pkKey pkVal = some (os, l₂)) :
    unpack_many_to_many objects km pkKey pkVal = some (o :: os, l₂) := by
  obtain ⟨hp, hi⟩ := unpackSingleNested_of_uso_true h
  obtain ⟨p2, hi2⟩ := unpackMany_of_umm_some h2
  unfold unpack_many_to_many
  rw [unpackMany.eq_def]
  simp [hi, heq, hi2]

/-- The root folding loop maps the empty row set to the empty list. -/
theorem fold_nil [DecidableEq V] (km : Keymap V) :
    get_objects_fold ([] : List (Row V)) km = some [] := by
  rw [get_objects_fold]

/-- One iteration of the root folding loop: a successful top-level
`unpack_single_object` contributes one nested dict and the loop continues
on the remaining rows. -/
theorem fold_cons [DecidableEq V] (r : Row V) (rs : List (Row V))
    (km : Keymap V) (d : Obj V) (rest' : List (Row V))
    (h : unpack_single_object (r :: rs) km false = some (d, rest')) :
    get_objects_fold (r :: rs) km =
      (get_objects_fold rest' km).map (fun ds => d :: ds) := by
  obtain ⟨l, hp, hi, hrest⟩ := unpackSingleNested_of_uso_false h
  subst hrest
  rw [get_objects_fold.eq_def]
  simp only [hi]
  rcases get_objects_fold l.tail km with _ | ds <;> simp

/-- The keymap built by `get_objects` when no include specification is
given (queryset.py lines 196-199):
`for column in s_cte.columns: keymap[column.name] = column.name`,
a flat mapping from each base-table column name to itself. -/
def build_keymap_no_include (V : Type) (cols : List String) : Keymap V :=
  cols.map (fun c => (c, KVal.label c))

/-- The logical dict produced by unpacking one row against the flat
no-include keymap: every column is copied to the field of the same name,
except that a column named like a reserved relationship marker is skipped
by the unpacking iteration. -/
def row_to_obj (cols : List String) (r : Row V) : Obj V :=
  match cols with
  | [] => []
  | c :: cs =>
    if c = "__foreign_key" ∨ c = "__many_to_many" then row_to_obj cs r
    else (c, UVal.val (r c)) :: row_to_obj cs r

/-- Unpacking a flat all-label keymap consumes no rows and copies the
captured row's columns in order. -/
theorem run_flat [DecidableEq V] (obj : Row V) (km : Keymap V)
    (cols : List String) (objects : List (Row V)) :
    unpack_fields_run obj km (build_keymap_no_include V cols) objects =
      some (row_to_obj cols obj, objects) := by
  induction cols with
  | nil => exact run_nil obj km objects
  | cons c cs ih =>
    show unpack_fields_run obj km ((c, KVal.label c) ::
      build_keymap_no_include V cs) objects = _
    by_cases hc : c = "__foreign_key" ∨ c = "__many_to_many"
    · rw [run_skip obj km c _ _ objects hc, ih, row_to_obj]
      simp [hc]
    · rw [run_label obj km c c _ objects hc _ _ ih, row_to_obj]
      simp [hc]

/-- `unpack_single_object` against the flat no-include keymap unpacks the
first row and (when top-level) pops exactly that row. -/
theorem uso_flat [DecidableEq V] (r : Row V) (rs : List (Row V))
    (cols : List String) (nested : Bool) :
    unpack_single_object (r :: rs) (build_keymap_no_include V cols) nested =
      some (row_to_obj cols r, if nested then r :: rs else rs) := by
  have h := uso_cons r rs (build_keymap_no_include V cols) nested _ _
    (run_flat r (build_keymap_no_include V cols) cols (r :: rs))
  rw [h]
  cases nested <;> simp

/-- The root folding loop applied to a single-table (flat keymap) row
set produces one logical dict per row, in row order. -/
theorem fold_flat [DecidableEq V] (rows : List (Row V)) (cols : List String) :
    get_objects_fold rows (build_keymap_no_include V cols) =
      some (rows.map (row_to_obj cols)) := by
  induction rows with
  | nil => exact fold_nil _
  | cons r rs ih =>
    rw [fold_cons r rs _ (row_to_obj cols r) rs
      (by simpa using uso_flat r rs cols false), ih]
    rfl

/-- Under field names that avoid the reserved marker names, `row_to_obj`
is the full identity copy of the row restricted to the column list. -/
theorem row_to_obj_eq_map (cols : List String) (r : Row V)
    (hc : ∀ c ∈ cols, c ≠ "__foreign_key" ∧ c ≠ "__many_to_many") :
    row_to_obj cols r = cols.map (fun c => (c, UVal.val (r c))) := by
  induction cols with
  | nil => rfl
  | cons c cs ih =>
    have hcc := hc c (by simp)
    rw [row_to_obj]
    simp only [hcc.1, hcc.2, or_self, if_false, List.map_cons]
    rw [ih (fun x hx => hc x (by simp [hx]))]

/-- C1 (counterexample): the claim fails as stated because the unpacking
iteration of `unpack_single_object` skips every key named like a reserved
relationship marker, even when it is a genuine base-table column of an
entity with no relationships.  For the single-table row set `[{·↦7}]`
with columns `pk` and `__many_to_many`, the keymap is the flat identity
mapping, yet the unpacked dict lacks the `__many_to_many` field, so it
does not hold the stored value of that column. -/
theorem claim_c1_counterexample :
    build_keymap_no_include Nat ["pk", "__many_to_many"] =
      [("pk", KVal.label "pk"),
       ("__many_to_many", KVal.label "__many_to_many")] ∧
    get_objects_fold [(fun _ => (7 : Nat))]
        (build_keymap_no_include Nat ["pk", "__many_to_many"]) =
      some [[("pk", UVal.val 7)]] ∧
    get_objects_fold [(fun _ => (7 : Nat))]
        (build_keymap_no_include Nat ["pk", "__many_to_many"]) ≠
      some [[("pk", UVal.val 7), ("__many_to_many", UVal.val 7)]] := by
  refine ⟨rfl, ?_, ?_⟩
  · rw [fold_flat]
    simp [row_to_obj]
  · rw [fold_flat]
    simp [row_to_obj]

/-- C1 (amended): for every entity with no relationships whose base-table
column names avoid the two reserved marker names `__foreign_key` and
`__many_to_many`, the keymap built for unpacking is the flat identity
mapping from each column name to itself, and unpacking the single-table
row set produces one logical dict per row, in row order, whose value at
each field name is exactly that row's stored column value. -/
theorem claim_c1_amended [DecidableEq V] (cols : List String)
    (rows : List (Row V))
    (hc : ∀ c ∈ cols, c ≠ "__foreign_key" ∧ c ≠ "__many_to_many") :
    build_keymap_no_include V cols = cols.map (fun c => (c, KVal.label c)) ∧
    get_objects_fold rows (build_keymap_no_include V cols) =
      some (rows.map (fun r => cols.map (fun c => (c, UVal.val (r c))))) := by
  refine ⟨rfl, ?_⟩
  rw [fold_flat]
  exact congrArg some
    (List.map_congr_left (fun r _ => row_to_obj_eq_map cols r hc))

/-- C1 witness: the amended theorem applied to the concrete column list
`[pk, name]` and the one-row row set `[{·↦3}]`. -/
theorem claim_c1_witness :
    (∀ c ∈ ["pk", "name"], c ≠ "__foreign_key" ∧ c ≠ "__many_to_many") ∧
    (build_keymap_no_include Nat ["pk", "name"] =
      ["pk", "name"].map (fun c => (c, KVal.label c)) ∧
     get_objects_fold [(fun _ => (3 : Nat))]
        (build_keymap_no_include Nat ["pk", "name"]) =
      some ([(fun _ => (3 : Nat))].map
        (fun r => ["pk", "name"].map (fun c => (c, UVal.val (r c)))))) :=
  ⟨by decide, claim_c1_amended ["pk", "name"] [(fun _ => (3 : Nat))] (by decide)⟩

/-- C6: the root unpacking loop of `get_objects` terminates because every
successful top-level call to `unpack_single_object` removes at least one
row from the front of the row set, and each iteration appends exactly one
nested dict. -/
theorem claim_c6 [DecidableEq V] (objects : List (Row V)) (km : Keymap V)
    (d : Obj V) (rest : List (Row V))
    (h : unpack_single_object objects km false = some (d, rest)) :
    rest.length < objects.length ∧
    get_objects_fold objects km =
      (get_objects_fold rest km).map (fun ds => d :: ds) := by
  refine ⟨uso_false_shrinks h, ?_⟩
  cases objects with
  | nil =>
    rw [uso_nil] at h
    exact absurd h (by simp)
  | cons r rs => exact fold_cons r rs km d rest h

/-- C6 witness: the theorem applied to a concrete one-row row set with
the flat keymap over the single column `pk`. -/
theorem claim_c6_witness :
    unpack_single_object [(fun _ => (0 : Nat))]
        (build_keymap_no_include Nat ["pk"]) false =
      some ([("pk", UVal.val 0)], []) ∧
    (([] : List (Row Nat)).length <
       ([(fun _ => (0 : Nat))] : List (Row Nat)).length ∧
     get_objects_fold [(fun _ => (0 : Nat))]
        (build_keymap_no_include Nat ["pk"]) =
       (get_objects_fold ([] : List (Row Nat))
          (build_keymap_no_include Nat ["pk"])).map
         (fun ds => [("pk", UVal.val 0)] :: ds)) := by
  have h : unpack_single_object [(fun _ => (0 : Nat))]
      (build_keymap_no_include Nat ["pk"]) false =
      some ([("pk", UVal.val 0)], []) := by
    simpa [row_to_obj] using uso_flat (fun _ => (0 : Nat)) [] ["pk"] false
  exact ⟨h, claim_c6 _ _ _ _ h⟩

/-- A flat run of keymap entries: each logical field name mapped to a
plain physical column label (as produced by `process_fields_and_subkeys`
for the projected columns of one entity). -/
def flat_entries (V : Type) (ps : List (String × String)) : Keymap V :=
  ps.map (fun p => (p.1, KVal.label p.2))

/-- The logical dict fragment obtained from a flat run of entries against
one row: each field receives the row's value at its column label. -/
def flat_obj (ps : List (String × String)) (r : Row V) : Obj V :=
  ps.map (fun p => (p.1, UVal.val (r p.2)))

/-- Processing a flat run of marker-free label entries copies the
captured row's values and then continues with the remaining entries. -/
theorem run_flat_prefix [DecidableEq V] (obj : Row V) (km : Keymap V)
    (ps : List (String × String)) (restE : List (String × KVal V))
    (objects : List (Row V)) (d : Obj V) (l : List (Row V))
    (hm : ∀ p ∈ ps, p.1 ≠ "__foreign_key" ∧ p.1 ≠ "__many_to_many")
    (h : unpack_fields_run obj km restE objects = some (d, l)) :
    unpack_fields_run obj km (flat_entries V ps ++ restE) objects =
      some (flat_obj ps obj ++ d, l) := by
  induction ps with
  | nil => simpa [flat_entries, flat_obj] using h
  | cons p ps ih =>
    have hp := hm p (by simp)
    have ihh := ih (fun q hq => hm q (by simp [hq]))
    show unpack_fields_run obj km
      ((p.1, KVal.label p.2) :: (flat_entries V ps ++ restE)) objects = _
    rw [run_label obj km p.1 p.2 _ objects (by simp [hp.1, hp.2]) _ _ ihh]
    simp [flat_obj]

/-- The `__many_to_many` marker recorded at the end of a relationship
branch is found by the membership test `'__many_to_many' in value`. -/
theorem lookup_m2m_marker (cps : List (String × String))
    (hc : ∀ p ∈ cps, p.1 ≠ "__many_to_many") :
    (flat_entries V cps ++ [("__many_to_many", KVal.mark)]).lookup
        "__many_to_many" = some (KVal.mark : KVal V) := by
  induction cps with
  | nil => simp [flat_entries]
  | cons p ps ih =>
    have hp := hc p (by simp)
    show (((p.1, KVal.label p.2) : String × KVal V) ::
      (flat_entries V ps ++ [("__many_to_many", KVal.mark)])).lookup
        "__many_to_many" = _
    rw [List.lookup_cons]
    have hb : ("__many_to_many" == p.1) = false := by
      simp [Ne.symm hp]
    rw [hb]
    exact ih (fun q hq => hc q (by simp [hq]))

/-- A nested (non-popping) `unpack_single_object` against a one-level
many-to-many child branch (flat labels plus the trailing marker) unpacks
the first row's child columns and leaves the row set untouched. -/
theorem uso_child_flat [DecidableEq V] (cps : List (String × String))
    (hc : ∀ p ∈ cps, p.1 ≠ "__foreign_key" ∧ p.1 ≠ "__many_to_many")
    (g0 : Row V) (tl : List (Row V)) :
    unpack_single_object (g0 :: tl)
        (flat_entries V cps ++ [("__many_to_many", KVal.mark)]) true =
      some (flat_obj cps g0, g0 :: tl) := by
  have hmarker : unpack_fields_run g0
      (flat_entries V cps ++ [("__many_to_many", KVal.mark)])
      [("__many_to_many", KVal.mark)] (g0 :: tl) =
      some ([], g0 :: tl) := by
    rw [run_skip _ _ _ _ _ _ (Or.inr rfl), run_nil]
  have hrun := run_flat_prefix g0
    (flat_entries V cps ++ [("__many_to_many", KVal.mark)]) cps
    [("__many_to_many", KVal.mark)] (g0 :: tl) _ _ hc hmarker
  have h := uso_cons g0 tl
    (flat_entries V cps ++ [("__many_to_many", KVal.mark)]) true _ _ hrun
  simpa using h

/-- Collapsing one contiguous fan-out group: `unpack_many_to_many`
applied to a group of rows that all carry the parent's primary-key value,
followed by rows that do not, accumulates one child dict per group row
(in order) and stops with the group's last row still at the front. -/
theorem umm_group [DecidableEq V] (cps : List (String × String))
    (hc : ∀ p ∈ cps, p.1 ≠ "__foreign_key" ∧ p.1 ≠ "__many_to_many")
    (pkv : V) (rest : List (Row V))
    (hrest : rest = [] ∨ ∃ r0 rs0, rest = r0 :: rs0 ∧ r0 "pk" ≠ pkv)
    (g0 : Row V) (gtl : List (Row V))
    (hpk : ∀ r ∈ g0 :: gtl, r "pk" = pkv) :
    unpack_many_to_many ((g0 :: gtl) ++ rest)
        (flat_entries V cps ++ [("__many_to_many", KVal.mark)]) "pk" pkv =
      some ((g0 :: gtl).map (flat_obj cps),
        (g0 :: gtl).getLast (by simp) :: rest) := by
  induction gtl generalizing g0 with
  | nil =>
    have hsingle := uso_child_flat cps hc g0 rest
    rcases hrest with hre | ⟨r0, rs0, hre, hner⟩
    · subst hre
      have := umm_last [g0]
        (flat_entries V cps ++ [("__many_to_many", KVal.mark)]) "pk" pkv
        (flat_obj cps g0) g0 (by simpa using hsingle)
      simpa using this
    · subst hre
      have := umm_stop (g0 :: r0 :: rs0)
        (flat_entries V cps ++ [("__many_to_many", KVal.mark)]) "pk" pkv
        (flat_obj cps g0) g0 r0 rs0 (by simpa using hsingle) hner
      simpa using this
  | cons g1 gtl2 ih =>
    have hsingle := uso_child_flat cps hc g0 (g1 :: gtl2 ++ rest)
    have hpk1 : g1 "pk" = pkv := hpk g1 (by simp)
    have ihh := ih g1 (fun r hr => hpk r (List.mem_cons_of_mem g0 hr))
    have hcont := umm_cont ((g0 :: g1 :: gtl2) ++ rest)
      (flat_entries V cps ++ [("__many_to_many", KVal.mark)]) "pk" pkv
      (flat_obj cps g0) g0 g1 (gtl2 ++ rest) ((g1 :: gtl2).map (flat_obj cps))
      ((g1 :: gtl2).getLast (by simp) :: rest)
      (by simpa using hsingle) hpk1 (by simpa using ihh)
    have hlast : (g0 :: g1 :: gtl2).getLast (by simp) =
        (g1 :: gtl2).getLast (by simp) := by
      simp [List.getLast]
    rw [hlast]
    simpa using hcont

/-- The keymap built by the include path of `get_objects` for a parent
entity with one many-to-many relationship `ck`: the parent's primary key
(always included, labelled `pk`), the parent's remaining columns, and the
child branch holding the child's labelled columns with the
`__many_to_many` marker recorded last. -/
def m2m_keymap (V : Type) (pps : List (String × String)) (ck : String)
    (cps : List (String × String)) : Keymap V :=
  ("pk", KVal.label "pk") :: (flat_entries V pps ++
    [(ck, KVal.sub (flat_entries V cps ++ [("__many_to_many", KVal.mark)]))])

/-- C2: for a parent entity whose N many-to-many related children arrive
as N contiguous rows that all carry the parent's primary-key value
(contiguity keyed on the `pk` label), followed by rows that do not,
unpacking consumes exactly those N rows and yields a single parent dict
whose child list has one entry per group row, in the row set's relative
order; the root loop therefore appends exactly one parent for the group. -/
theorem claim_c2 [DecidableEq V] (pps cps : List (String × String))
    (ck : String)
    (hp : ∀ p ∈ pps, p.1 ≠ "__foreign_key" ∧ p.1 ≠ "__many_to_many")
    (hc : ∀ p ∈ cps, p.1 ≠ "__foreign_key" ∧ p.1 ≠ "__many_to_many")
    (hck : ck ≠ "__foreign_key" ∧ ck ≠ "__many_to_many")
    (pkv : V) (g0 : Row V) (gtl rest : List (Row V))
    (hpk : ∀ r ∈ g0 :: gtl, r "pk" = pkv)
    (hrest : rest = [] ∨ ∃ r0 rs0, rest = r0 :: rs0 ∧ r0 "pk" ≠ pkv) :
    unpack_single_object ((g0 :: gtl) ++ rest) (m2m_keymap V pps ck cps)
        false =
      some (("pk", UVal.val pkv) :: (flat_obj pps g0 ++
        [(ck, UVal.objs ((g0 :: gtl).map (flat_obj cps)))]), rest) ∧
    ((g0 :: gtl).map (flat_obj cps)).length = (g0 :: gtl).length ∧
    get_objects_fold ((g0 :: gtl) ++ rest) (m2m_keymap V pps ck cps) =
      (get_objects_fold rest (m2m_keymap V pps ck cps)).map
        (fun ds => (("pk", UVal.val pkv) :: (flat_obj pps g0 ++
          [(ck, UVal.objs ((g0 :: gtl).map (flat_obj cps)))])) :: ds) := by
  have hpk0 : g0 "pk" = pkv := hpk g0 (by simp)
  have hmm := umm_group cps hc pkv rest hrest g0 gtl hpk
  have h1 : unpack_many_to_many ((g0 :: gtl) ++ rest)
      (flat_entries V cps ++ [("__many_to_many", KVal.mark)])
      "pk" (g0 "pk") =
      some ((g0 :: gtl).map (flat_obj cps),
        (g0 :: gtl).getLast (by simp) :: rest) := by
    rw [hpk0]
    exact hmm
  have hchild : unpack_fields_run g0 (m2m_keymap V pps ck cps)
      [(ck, KVal.sub (flat_entries V cps ++ [("__many_to_many", KVal.mark)]))]
      ((g0 :: gtl) ++ rest) =
      some ([(ck, UVal.objs ((g0 :: gtl).map (flat_obj cps)))],
        (g0 :: gtl).getLast (by simp) :: rest) := by
    have := run_m2m g0 (m2m_keymap V pps ck cps) ck
      (flat_entries V cps ++ [("__many_to_many", KVal.mark)]) []
      ((g0 :: gtl) ++ rest) "pk"
      (by simp [hck.1, hck.2])
      (by rw [lookup_m2m_marker cps (fun p hp' => (hc p hp').2)]; simp)
      (by simp [m2m_keymap, List.lookup_cons])
      _ _ h1 _ _ (run_nil g0 (m2m_keymap V pps ck cps) _)
    simpa using this
  have hbase := run_flat_prefix g0 (m2m_keymap V pps ck cps) pps _ _ _ _
    hp hchild
  have hpkfield := run_label g0 (m2m_keymap V pps ck cps) "pk" "pk" _ _
    (by simp) _ _ hbase
  have husop := uso_cons g0 (gtl ++ rest) (m2m_keymap V pps ck cps) false _ _
    hpkfield
  rw [hpk0] at husop
  have husop' : unpack_single_object ((g0 :: gtl) ++ rest)
      (m2m_keymap V pps ck cps) false =
      some (("pk", UVal.val pkv) :: (flat_obj pps g0 ++
        [(ck, UVal.objs ((g0 :: gtl).map (flat_obj cps)))]), rest) := by
    simpa using husop
  refine ⟨husop', by simp, ?_⟩
  have := fold_cons g0 (gtl ++ rest) (m2m_keymap V pps ck cps) _ rest husop'
  simpa using this

/-- A concrete row for the C2 witness: the parent row of the fan-out
group (every column reads 1). -/
def c2w_r1 : Row Nat := fun _ => 1

/-- A concrete row for the C2 witness: the second fan-out row, differing
from the first only in the child branch's column `c`. -/
def c2w_r2 : Row Nat := fun s => if s = "c" then 2 else 1

/-- C2 witness: the theorem applied to a two-row fan-out group for one
parent with primary key 1 and child column `c`. -/
theorem claim_c2_witness :
    (∀ p ∈ [("c", "c")], p.1 ≠ "__foreign_key" ∧ p.1 ≠ "__many_to_many") ∧
    ("cs" ≠ "__foreign_key" ∧ "cs" ≠ "__many_to_many") ∧
    (∀ r ∈ [c2w_r1, c2w_r2], r "pk" = 1) ∧
    (unpack_single_object ([c2w_r1, c2w_r2] ++ [])
        (m2m_keymap Nat [] "cs" [("c", "c")]) false =
      some (("pk", UVal.val 1) :: (flat_obj [] c2w_r1 ++
        [("cs", UVal.objs ([c2w_r1, c2w_r2].map (flat_obj [("c", "c")])))]),
        []) ∧
     ([c2w_r1, c2w_r2].map (flat_obj [("c", "c")])).length =
       [c2w_r1, c2w_r2].length ∧
     get_objects_fold ([c2w_r1, c2w_r2] ++ [])
         (m2m_keymap Nat [] "cs" [("c", "c")]) =
       (get_objects_fold [] (m2m_keymap Nat [] "cs" [("c", "c")])).map
         (fun ds => (("pk", UVal.val 1) :: (flat_obj [] c2w_r1 ++
           [("cs", UVal.objs
             ([c2w_r1, c2w_r2].map (flat_obj [("c", "c")])))])) :: ds)) :=
  ⟨by decide, by decide, by decide,
   claim_c2 [] [("c", "c")] "cs" (by simp) (by decide) (by decide) 1
     c2w_r1 [c2w_r2] [] (by decide) (Or.inl rfl)⟩

/-- The Result View (`QuerySet.__init__`, queryset.py lines 14-50) for a
query over one entity class with no include specification.  External
collaborators are modelled at their interfaces:

* `table` — the class's full stored table (its rows in storage order),
  consulted by the backend's `filter` entry point;
* `base` — the ordered row sequence the SQL engine delivers for the
  view's condition and ordering, before offset/limit pagination;
* `cols` — the base-table column names (`s_cte.columns`);
* `select` — the pre-built select override set by `intersect`; when
  present, `get_select` returns it and ignores all other shaping fields;
* `order_bys` — the order-by list set by `sort`; the re-ordering itself
  is performed by the external engine, so it is tracked as plan state;
* `offset_` / `limit_` — `self._offset` / `self._limit` (`none` is
  Python `None`);
* `objects`, `pop_objects`, `count` — the three lazily computed caches,
  `none` meaning "not computed". -/
structure QuerySet (V : Type) where
  table : List (Row V)
  base : List (Row V)
  cols : List String
  select : Option (List (Row V))
  order_bys : Option (List (String × Bool))
  offset_ : Option Int
  limit_ : Option Int
  objects : Option (List (Obj V))
  pop_objects : Option (List (Obj V))
  count : Option Nat

/-- `limit` (queryset.py lines 52-54): record the bound and return the
same view; no cache is touched. -/
def QuerySet.limit (qs : QuerySet V) (l : Int) : QuerySet V :=
  { qs with limit_ := some l }

/-- `offset` (queryset.py lines 56-58): record the bound and return the
same view; no cache is touched. -/
def QuerySet.offset (qs : QuerySet V) (o : Int) : QuerySet V :=
  { qs with offset_ := some o }

/-- `sort` (queryset.py lines 63-80): resolve each sort key through the
backend's schema map (modelled as membership in the base-table column
list; an unresolvable key raises `AttributeError`, modelled as `none`),
replace the order-by list (positive direction is ascending), and reset
the materialized-objects cache (`self.objects = None`).  The cached
count is left in place. -/
def QuerySet.sort (qs : QuerySet V) (keys : List (String × Int)) :
    Option (QuerySet V) :=
  if keys.all (fun kd => qs.cols.contains kd.1) then
    some { qs with
      order_bys := some (keys.map (fun kd => (kd.1, decide (kd.2 > 0)))),
      objects := none }
  else none

/-- `get_select` (queryset.py lines 326-356), as the row sequence the
engine delivers for the generated statement: a pre-built select override
wins outright; otherwise pagination applies on top of the condition and
ordering already reflected in `base`.  The truthiness tests
`if self._offset:` / `if self._limit:` make a zero bound a no-op.  (A
negative bound would be handed to the engine verbatim; its effect is
engine-specific and is modelled benignly via `Int.toNat`.) -/
def QuerySet.get_select_rows (qs : QuerySet V) : List (Row V) :=
  match qs.select with
  | some s => s
  | none =>
    let s := qs.base
    let s := match qs.offset_ with
      | none => s
      | some o => if o = 0 then s else s.drop o.toNat
    match qs.limit_ with
    | none => s
    | some l => if l = 0 then s else s.take l.toNat

/-- `get_objects` (queryset.py lines 107-272) for a view with no include
specification: execute the select inside a transaction — the engine
returning `get_select_rows` — build the flat identity keymap over the
base-table columns, fold the rows back into logical dicts, and set both
the primary cache and the separately tracked working copy
(`self.pop_objects = self.objects[:]`).  A failed fold models a
propagated execution error. -/
def QuerySet.get_objects [DecidableEq V] (qs : QuerySet V) :
    Option (QuerySet V) :=
  match get_objects_fold qs.get_select_rows
      (build_keymap_no_include V qs.cols) with
  | none => none
  | some objs => some { qs with objects := some objs, pop_objects := some objs }

/-- The `if self.objects is None: self.get_objects()` pattern guarding
every consumer of the materialized results. -/
def QuerySet.materialize_if_needed [DecidableEq V] (qs : QuerySet V) :
    Option (QuerySet V) :=
  match qs.objects with
  | some _ => some qs
  | none => qs.get_objects

/-- `as_list` (queryset.py lines 274-277): materialize if needed and
return the deserialized objects (the deserializer is the identity on
logical dicts in this model). -/
def QuerySet.as_list [DecidableEq V] (qs : QuerySet V) :
    Option (List (Obj V)) :=
  match qs.materialize_if_needed with
  | none => none
  | some q => q.objects

/-- `__len__` (queryset.py lines 358-365): a count query over the current
select (`count(*)` over the plan restricted to the primary-key column,
which has the same cardinality as the select's row set), cached in
`self.count`. -/
def QuerySet.length (qs : QuerySet V) : Nat × QuerySet V :=
  match qs.count with
  | some c => (c, qs)
  | none =>
    (qs.get_select_rows.length,
     { qs with count := some qs.get_select_rows.length })

/-- Integer indexing in `__getitem__` (queryset.py lines 299-301):
materialize if needed, return the deserialized object at the position
(an out-of-range position raises, modelled as `none`). -/
def QuerySet.getitem_int [DecidableEq V] (qs : QuerySet V) (k : Nat) :
    Option (Obj V) :=
  match qs.materialize_if_needed with
  | none => none
  | some q =>
    match q.objects with
    | some objs => objs[k]?
    | none => none

/-- The Python slice object `slice(start, stop, step)`. -/
structure SliceArg where
  start : Option Int
  stop : Option Int
  step : Option Int

/-- Slicing in `__getitem__` (queryset.py lines 279-298), faithful to the
source:
* any explicit step raises `IndexError` (`if step != None`) — including
  an explicit step of 1;
* a missing start defaults to 0, a missing stop to `len(self)` (running
  the count query); negative bounds are resolved against `len(self)`;
* a shallow copy is taken; `qs.offset(start)` is applied only when the
  resolved start is truthy (`if start:`), `qs.limit(stop - start)`
  always; then the copy's caches are cleared.
The count query's cache side effect on `self` is not tracked: the copy
clears its own caches and `self` is not returned along this path. -/
def QuerySet.getitem_slice (qs : QuerySet V) (key : SliceArg) :
    Option (QuerySet V) :=
  match key.step with
  | some _ => none
  | none =>
    let start0 : Int := match key.start with
      | none => 0
      | some a => a
    let stop0 : Int := match key.stop with
      | none => ((qs.length).1 : Int)
      | some b => b
    let start1 : Int := if start0 < 0 then ((qs.length).1 : Int) + start0
      else start0
    let stop1 : Int := if stop0 < 0 then ((qs.length).1 : Int) + stop0
      else stop0
    let q := if start1 ≠ 0 then qs.offset start1 else qs
    let q := q.limit (stop1 - start1)
    some { q with objects := none, count := none }

/-- `pop(i=0)` (queryset.py lines 303-308): materialize if needed; if the
separately tracked working copy is truthy, remove and return its last
element (`list.pop()` with no argument — the index `i` is ignored);
otherwise raise `IndexError("pop from empty list")`. -/
def QuerySet.pop [DecidableEq V] (qs : QuerySet V) (i : Int) :
    Option (Obj V × QuerySet V) :=
  match qs.materialize_if_needed with
  | none => none
  | some q =>
    match q.pop_objects with
    | some (p :: ps) =>
      some ((p :: ps).getLast (by simp),
        { q with pop_objects := some (p :: ps).dropLast })
    | _ => none

/-- Iterated `pop` (for the frame property): each successful pop steps to
the returned view; a raised `IndexError` leaves the view as it was. -/
def QuerySet.popTimes [DecidableEq V] (qs : QuerySet V) : Nat → QuerySet V
  | 0 => qs
  | n + 1 =>
    match (qs.popTimes n).pop 0 with
    | some (_, q') => q'
    | none => qs.popTimes n

/-- SQL row equality for a select over the listed columns: two delivered
rows are the same result row when they agree on every selected column. -/
def projEqB [DecidableEq V] (cols : List String) (r₁ r₂ : Row V) : Bool :=
  cols.all (fun c => r₁ c == r₂ c)

/-- SQL `INTERSECT` of two selects over the same column list: the rows
present in both operands, duplicates eliminated (set semantics; this
model keeps the first operand's order, first occurrence wins). -/
def sqlIntersect [DecidableEq V] (cols : List String) :
    List (Row V) → List (Row V) → List (Row V)
  | [], _ => []
  | r :: rs, l₂ =>
    if l₂.any (fun r2 => projEqB cols r r2) then
      r :: sqlIntersect cols (rs.filter (fun r2 => !projEqB cols r r2)) l₂
    else
      sqlIntersect cols rs l₂
termination_by l₁ _ => l₁.length
decreasing_by
  all_goals simp_wf
  all_goals
    first
    | omega
    | exact Nat.lt_succ_of_le (List.length_filter_le _ _)

/-- `intersect` (queryset.py lines 314-316): a fresh view over the same
class whose select override is the relational intersection of this
view's select and the other's. -/
def QuerySet.intersect [DecidableEq V] (qs other : QuerySet V) :
    QuerySet V :=
  { table := qs.table
    base := qs.table
    cols := qs.cols
    select := some (sqlIntersect qs.cols qs.get_select_rows
      other.get_select_rows)
    order_bys := none
    offset_ := none
    limit_ := none
    objects := none
    pop_objects := none
    count := none }

/-- The backend's `filter` entry point (`backend.filter(cls, ...)`,
consumed by `QuerySet.filter`), modelled at its interface: it builds a
fresh view over the class whose condition selects the matching table
rows, delivered in storage order. -/
def backend_filter [DecidableEq V] (table : List (Row V))
    (cols : List String) (p : Row V → Bool) : QuerySet V :=
  { table := table
    base := table.filter p
    cols := cols
    select := none
    order_bys := none
    offset_ := none
    limit_ := none
    objects := none
    pop_objects := none
    count := none }

/-- `filter` (queryset.py lines 310-312): delegate to the backend's
filter entry point to build a second plan over the same class, then
return the intersection of the two plans. -/
def QuerySet.filter [DecidableEq V] (qs : QuerySet V) (p : Row V → Bool) :
    QuerySet V :=
  qs.intersect (backend_filter qs.table qs.cols p)

/-- `distinct_pks` (queryset.py lines 367-371): a distinct select of the
primary-key column over the current plan, returned as a set. -/
def QuerySet.distinct_pks [DecidableEq V] (qs : QuerySet V) : Finset V :=
  (qs.get_select_rows.map (fun r => r "pk")).toFinset

/-- A concrete materialized view (one row, one column, both caches
computed) used by counterexamples and witnesses. -/
def qs_mat : QuerySet Nat :=
  { table := [fun _ => 1]
    base := [fun _ => 1]
    cols := ["pk"]
    select := none
    order_bys := none
    offset_ := none
    limit_ := none
    objects := some [[("pk", UVal.val 1)]]
    pop_objects := some [[("pk", UVal.val 1)]]
    count := some 1 }

/-- A concrete fresh (unmaterialized, unpaginated) two-row view used by
counterexamples and witnesses. -/
def qs_fresh : QuerySet Nat :=
  { table := [fun _ => 0, fun _ => 1]
    base := [fun _ => 0, fun _ => 1]
    cols := ["pk"]
    select := none
    order_bys := none
    offset_ := none
    limit_ := none
    objects := none
    pop_objects := none
    count := none }

/-- C4 (counterexample): on a materialized view with a cached count,
`limit` leaves both the materialized-objects cache and the cached count
computed (and so does `offset`), contradicting the claim that each of
sort, limit and offset resets both caches to the not-computed state. -/
theorem claim_c4_counterexample :
    (qs_mat.limit 3).objects = some [[("pk", UVal.val 1)]] ∧
    (qs_mat.limit 3).count = some 1 ∧
    (qs_mat.offset 2).objects = some [[("pk", UVal.val 1)]] ∧
    (qs_mat.offset 2).count = some 1 ∧
    ¬((qs_mat.limit 3).objects = none ∧ (qs_mat.limit 3).count = none) := by
  refine ⟨rfl, rfl, rfl, rfl, ?_⟩
  intro h
  simp [QuerySet.limit, qs_mat] at h

/-- C4 (amended): among the plan-mutating operations, `limit` and
`offset` reset neither the materialized-objects cache nor the cached
count; `sort` resets the materialized-objects cache but leaves the
cached count in place. -/
theorem claim_c4_amended (qs : QuerySet V) (n o : Int)
    (keys : List (String × Int)) (qs' : QuerySet V)
    (hs : qs.sort keys = some qs') :
    (qs.limit n).objects = qs.objects ∧
    (qs.limit n).count = qs.count ∧
    (qs.offset o).objects = qs.objects ∧
    (qs.offset o).count = qs.count ∧
    qs'.objects = none ∧
    qs'.count = qs.count := by
  unfold QuerySet.sort at hs
  by_cases hall : keys.all (fun kd => qs.cols.contains kd.1)
  · rw [if_pos hall] at hs
    simp only [Option.some.injEq] at hs
    subst hs
    exact ⟨rfl, rfl, rfl, rfl, rfl, rfl⟩
  · rw [if_neg hall] at hs
    exact absurd hs (by simp)

/-- C4 witness: the amended theorem applied to the concrete materialized
view with a sort on its primary-key column. -/
theorem claim_c4_witness :
    qs_mat.sort [("pk", 1)] =
      some { qs_mat with order_bys := some [("pk", true)],
                         objects := none } ∧
    ((qs_mat.limit 3).objects = qs_mat.objects ∧
     (qs_mat.limit 3).count = qs_mat.count ∧
     (qs_mat.offset 2).objects = qs_mat.objects ∧
     (qs_mat.offset 2).count = qs_mat.count ∧
     ({ qs_mat with order_bys := some [("pk", true)],
                    objects := none } : QuerySet Nat).objects = none ∧
     ({ qs_mat with order_bys := some [("pk", true)],
                    objects := none } : QuerySet Nat).count = qs_mat.count) := by
  have hs : qs_mat.sort [("pk", 1)] =
      some { qs_mat with order_bys := some [("pk", true)],
                         objects := none } := rfl
  exact ⟨hs, claim_c4_amended qs_mat 3 2 [("pk", 1)] _ hs⟩

/-- C7 (counterexample): a slice with an explicit step of 1 raises the
unsupported-operation error, because the source checks `step != None`
rather than `step != 1`. -/
theorem claim_c7_counterexample :
    qs_fresh.getitem_slice ⟨some 0, some 1, some 1⟩ = none := rfl

/-- C7 (amended): slicing raises the unsupported-operation error if and
only if a step is explicitly given (step is not None), whatever its
value — an explicit step of 1 is also rejected; a stepless slice is
always accepted, with no partial execution on the rejected path. -/
theorem claim_c7_amended (qs : QuerySet V) (key : SliceArg) :
    qs.getitem_slice key = none ↔ key.step ≠ none := by
  unfold QuerySet.getitem_slice
  rcases key with ⟨st, sp, stp⟩
  cases stp <;> simp

/-- C8: `pop(i)` materializes if needed, ignores its index argument,
removes and returns the last element of the separately tracked working
copy, and raises the out-of-range error exactly when that working copy
is empty. -/
theorem claim_c8 [DecidableEq V] (qs : QuerySet V) (i j : Int)
    (q : QuerySet V) (ps : List (Obj V))
    (hm : qs.materialize_if_needed = some q)
    (hp : q.pop_objects = some ps) :
    qs.pop i = qs.pop j ∧
    (qs.pop i = none ↔ ps = []) ∧
    (∀ hne : ps ≠ [],
      qs.pop i = some (ps.getLast hne,
        { q with pop_objects := some ps.dropLast })) := by
  cases ps with
  | nil =>
    have h1 : ∀ x : Int, qs.pop x = none := by
      intro x
      simp only [QuerySet.pop, hm, hp]
    refine ⟨by rw [h1, h1], by simp [h1], fun hne => absurd rfl hne⟩
  | cons p pt =>
    have h1 : ∀ x : Int, qs.pop x =
        some ((p :: pt).getLast (by simp),
          { q with pop_objects := some (p :: pt).dropLast }) := by
      intro x
      simp only [QuerySet.pop, hm, hp]
    refine ⟨by rw [h1, h1], by simp [h1], fun hne => by rw [h1]⟩

/-- C8 witness: the theorem applied to the concrete materialized view,
with two different (ignored) index arguments. -/
theorem claim_c8_witness :
    qs_mat.materialize_if_needed = some qs_mat ∧
    qs_mat.pop_objects = some [[("pk", UVal.val 1)]] ∧
    (qs_mat.pop 5 = qs_mat.pop (-2) ∧
     (qs_mat.pop 5 = none ↔ ([[("pk", UVal.val 1)]] : List (Obj Nat)) = []) ∧
     (∀ hne : ([[("pk", UVal.val 1)]] : List (Obj Nat)) ≠ [],
       qs_mat.pop 5 = some (([[("pk", UVal.val 1)]] : List (Obj Nat)).getLast hne,
         { qs_mat with
           pop_objects := some ([[("pk", UVal.val 1)]] :
             List (Obj Nat)).dropLast }))) := by
  have hm : qs_mat.materialize_if_needed = some qs_mat := rfl
  have hp : qs_mat.pop_objects = some [[("pk", UVal.val 1)]] := rfl
  exact ⟨hm, hp, claim_c8 qs_mat 5 (-2) qs_mat _ hm hp⟩

/-- C10: on a materialized view, any number of pops mutates only the
separately tracked working copy — the primary materialized-objects cache
is untouched, so as_list, length and integer indexing still observe all
originally unpacked objects. -/
theorem claim_c10 [DecidableEq V] (qs : QuerySet V) (objs : List (Obj V))
    (hobj : qs.objects = some objs) (n : Nat) :
    (∃ po, qs.popTimes n = { qs with pop_objects := po }) ∧
    (qs.popTimes n).objects = some objs ∧
    (qs.popTimes n).as_list = some objs ∧
    ((qs.popTimes n).length).1 = (qs.length).1 ∧
    (∀ k, (qs.popTimes n).getitem_int k = qs.getitem_int k) := by
  have hpopm : ∀ (qs1 : QuerySet V), qs1.objects = some objs → ∀ x : Int,
      qs1.pop x = match qs1.pop_objects with
        | some (p :: ps) =>
          some ((p :: ps).getLast (by simp),
            { qs1 with pop_objects := some (p :: ps).dropLast })
        | _ => none := by
    intro qs1 h1 x
    simp only [QuerySet.pop, QuerySet.materialize_if_needed, h1]
  have hframe : ∃ po, qs.popTimes n = { qs with pop_objects := po } := by
    induction n with
    | zero => exact ⟨qs.pop_objects, rfl⟩
    | succ m ih =>
      obtain ⟨po, hq⟩ := ih
      have hstep : qs.popTimes (m + 1) =
          match (qs.popTimes m).pop 0 with
          | some (_, q') => q'
          | none => qs.popTimes m := rfl
      rw [hstep, hq, hpopm { qs with pop_objects := po } hobj 0]
      cases po with
      | none => exact ⟨none, rfl⟩
      | some ps =>
        cases ps with
        | nil => exact ⟨some [], rfl⟩
        | cons p pt => exact ⟨some (p :: pt).dropLast, rfl⟩
  obtain ⟨po, hq⟩ := hframe
  refine ⟨⟨po, hq⟩, ?_, ?_, ?_, ?_⟩ <;> rw [hq]
  · exact hobj
  · unfold QuerySet.as_list QuerySet.materialize_if_needed
    simp [hobj]
  · unfold QuerySet.length
    cases qs.count <;> rfl
  · intro k
    unfold QuerySet.getitem_int QuerySet.materialize_if_needed
    simp [hobj]

/-- C10 witness: the theorem applied to the concrete materialized view,
popped twice. -/
theorem claim_c10_witness :
    qs_mat.objects = some [[("pk", UVal.val 1)]] ∧
    ((∃ po, qs_mat.popTimes 2 = { qs_mat with pop_objects := po }) ∧
     (qs_mat.popTimes 2).objects = some [[("pk", UVal.val 1)]] ∧
     (qs_mat.popTimes 2).as_list = some [[("pk", UVal.val 1)]] ∧
     ((qs_mat.popTimes 2).length).1 = (qs_mat.length).1 ∧
     (∀ k, (qs_mat.popTimes 2).getitem_int k = qs_mat.getitem_int k)) :=
  ⟨rfl, claim_c10 qs_mat [[("pk", UVal.val 1)]] rfl 2⟩

/-- The backend's class/collection registry (`Backend.__init__`,
base.py): `classes` holds the registered document classes (modelled by
name), `collections` maps each collection name to its registered class. -/
structure BackendModel where
  classes : List String
  collections : List (String × String)

/-- The argument of `create_instance`: either a reference to a document
class or a collection name. -/
inductive CollectionOrClass where
  | cls : String → CollectionOrClass
  | coll : String → CollectionOrClass

/-- `str(collection_or_class)`, as interpolated into the error message. -/
def CollectionOrClass.name : CollectionOrClass → String
  | CollectionOrClass.cls c => c
  | CollectionOrClass.coll s => s

/-- `create_instance` (base.py lines 412-464) at the registry interface:
a class reference resolves when it is a key of `self.classes`, a
collection name when it is a key of `self.collections` (a class object is
never a key of the string-keyed `collections` dict, and vice versa); any
other argument raises `AttributeError("Unknown collection or class: %s!")`
before any construction work.  On success the instance is built from the
resolved class and the deserialized attributes by the document
constructor (external collaborators), so the model returns the resolved
class paired with the attributes. -/
def create_instance {α : Type} (be : BackendModel) (coc : CollectionOrClass)
    (attributes : α) : Except String (String × α) :=
  match coc with
  | CollectionOrClass.cls c =>
    if c ∈ be.classes then Except.ok (c, attributes)
    else Except.error ("Unknown collection or class: " ++ c ++ "!")
  | CollectionOrClass.coll s =>
    match be.collections.lookup s with
    | some c => Except.ok (c, attributes)
    | none => Except.error ("Unknown collection or class: " ++ s ++ "!")

/-- C9: for every argument that is neither a registered class nor a
known collection name, instance creation reports the attribute-style
lookup error naming the unknown collection or class, rather than
crashing or returning a partial object. -/
theorem claim_c9 {α : Type} (be : BackendModel) (coc : CollectionOrClass)
    (attributes : α)
    (h : (∀ c, coc = CollectionOrClass.cls c → c ∉ be.classes) ∧
         (∀ s, coc = CollectionOrClass.coll s →
            be.collections.lookup s = none)) :
    create_instance be coc attributes =
      Except.error ("Unknown collection or class: " ++ coc.name ++ "!") := by
  cases coc with
  | cls c =>
    have hc := h.1 c rfl
    simp [create_instance, CollectionOrClass.name, hc]
  | coll s =>
    have hs := h.2 s rfl
    simp [create_instance, CollectionOrClass.name, hs]

/-- C9 witness: an unknown collection name against a registry holding one
class under one collection. -/
theorem claim_c9_witness :
    ((∀ c, CollectionOrClass.coll "movies" = CollectionOrClass.cls c →
        c ∉ (BackendModel.mk ["Actor"] [("actors", "Actor")]).classes) ∧
     (∀ s, CollectionOrClass.coll "movies" = CollectionOrClass.coll s →
        (BackendModel.mk ["Actor"]
          [("actors", "Actor")]).collections.lookup s = none)) ∧
    create_instance (BackendModel.mk ["Actor"] [("actors", "Actor")])
        (CollectionOrClass.coll "movies") (0 : Nat) =
      Except.error ("Unknown collection or class: " ++
        (CollectionOrClass.coll "movies").name ++ "!") := by
  have h : (∀ c, CollectionOrClass.coll "movies" = CollectionOrClass.cls c →
        c ∉ (BackendModel.mk ["Actor"] [("actors", "Actor")]).classes) ∧
      (∀ s, CollectionOrClass.coll "movies" = CollectionOrClass.coll s →
        (BackendModel.mk ["Actor"]
          [("actors", "Actor")]).collections.lookup s = none) := by
    constructor
    · intro c hc
      cases hc
    · intro s hs
      cases hs
      decide
  exact ⟨h, claim_c9 (BackendModel.mk ["Actor"] [("actors", "Actor")])
    (CollectionOrClass.coll "movies") (0 : Nat) h⟩

/-- Python list slicing `l[a:b]` for nonnegative bounds. -/
def pyslice (a b : Nat) (l : List α) : List α := (l.drop a).take (b - a)

theorem pyslice_map (f : α → β) (a b : Nat) (l : List α) :
    pyslice a b (l.map f) = (pyslice a b l).map f := by
  simp [pyslice, List.map_take, List.map_drop]

/-- Materializing a view whose objects cache is empty unpacks exactly the
rows of its current select against the flat no-include keymap. -/
theorem as_list_fresh [DecidableEq V] (qs : QuerySet V)
    (hobj : qs.objects = none) :
    qs.as_list = some (qs.get_select_rows.map (row_to_obj qs.cols)) := by
  simp only [QuerySet.as_list, QuerySet.materialize_if_needed, hobj,
    QuerySet.get_objects, fold_flat]

/-- Dropping then taking on the base row sequence agrees with the same
slice of the paginated select, as long as the slice stays inside the
select's row count (the view has no select override and no offset). -/
theorem slice_base_eq (qs : QuerySet V) (hsel : qs.select = none)
    (hoff : qs.offset_ = none) (a b : Nat)
    (hb : b ≤ qs.get_select_rows.length) :
    (qs.base.drop a).take (b - a) =
      (qs.get_select_rows.drop a).take (b - a) := by
  have hrows : qs.get_select_rows =
      match qs.limit_ with
      | none => qs.base
      | some l => if l = 0 then qs.base else qs.base.take l.toNat := by
    simp only [QuerySet.get_select_rows, hsel, hoff]
  rcases hl : qs.limit_ with _ | l
  · rw [hrows, hl]
  · rw [hrows, hl] at hb ⊢
    by_cases hl0 : l = 0
    · simp [hl0]
    · simp only [hl0, if_false] at hb ⊢
      rw [List.drop_take, List.take_take]
      have hble : b ≤ l.toNat := by
        simp only [List.length_take] at hb
        omega
      congr 1
      omega

/-- C3 (counterexample): slicing with `a = b` does not produce the empty
view.  `view[0:0]` sets `limit(0)`, and `get_select` treats a limit of 0
as falsy (`if self._limit:`), so the "empty" slice materializes every
row of the view instead of none of them. -/
theorem claim_c3_counterexample :
    qs_fresh.getitem_slice ⟨some 0, some 0, none⟩ =
      some { qs_fresh with limit_ := some 0 } ∧
    ({ qs_fresh with limit_ := some 0 } : QuerySet Nat).as_list =
      some [[("pk", UVal.val 0)], [("pk", UVal.val 1)]] ∧
    (qs_fresh.as_list).map (pyslice 0 0) = some [] ∧
    ({ qs_fresh with limit_ := some 0 } : QuerySet Nat).as_list ≠
      (qs_fresh.as_list).map (pyslice 0 0) := by
  have h2 : ({ qs_fresh with limit_ := some 0 } : QuerySet Nat).as_list =
      some [[("pk", UVal.val 0)], [("pk", UVal.val 1)]] := by
    rw [as_list_fresh _ rfl]
    simp [QuerySet.get_select_rows, qs_fresh, row_to_obj]
  have h3 : (qs_fresh.as_list).map (pyslice 0 0) = some [] := by
    rw [as_list_fresh _ rfl]
    simp [pyslice]
  refine ⟨rfl, h2, h3, ?_⟩
  rw [h2, h3]
  simp

/-- C3 (amended): for a view with no select override, no offset already
set, and an empty objects cache, and bounds 0 ≤ a < b ≤ len(view),
`view[a:b]` materializes to the same sequence of logical dicts as slicing
the fully materialized view's list in memory.  (For a = b the code sets
`limit(0)` which `get_select` ignores; a preset offset would be replaced
rather than composed; a select override ignores pagination entirely.) -/
theorem claim_c3_amended [DecidableEq V] (qs : QuerySet V) (a b : Nat)
    (hsel : qs.select = none) (hoff : qs.offset_ = none)
    (hobj : qs.objects = none) (hab : a < b)
    (hb : b ≤ qs.get_select_rows.length) :
    ∃ q, qs.getitem_slice ⟨some (a : Int), some (b : Int), none⟩ = some q ∧
      q.as_list = (qs.as_list).map (pyslice a b) := by
  have h1 : ¬((a : Int) < 0) := by omega
  have h2 : ¬((b : Int) < 0) := by omega
  rw [as_list_fresh qs hobj]
  by_cases ha0 : a = 0
  · subst ha0
    have hslice : qs.getitem_slice ⟨some (0 : Int), some (b : Int), none⟩ =
        some { qs with limit_ := some (b : Int), objects := none,
                       count := none } := by
      simp [QuerySet.getitem_slice, QuerySet.limit, h2]
    refine ⟨_, hslice, ?_⟩
    have hbne : ¬((b : Int) = 0) := by omega
    have hq : ({ qs with limit_ := some (b : Int), objects := none,
                          count := none } : QuerySet V).get_select_rows =
        qs.base.take b := by
      simp [QuerySet.get_select_rows, hsel, hoff, hbne]
    rw [as_list_fresh _ rfl, hq]
    have hbase := slice_base_eq qs hsel hoff 0 b hb
    simp only [List.drop_zero, Nat.sub_zero] at hbase
    simp [Option.map_some, pyslice_map, pyslice, hbase]
  · have hane : ((a : Int)) ≠ 0 := by omega
    have hslice : qs.getitem_slice ⟨some (a : Int), some (b : Int), none⟩ =
        some { qs with offset_ := some (a : Int),
                       limit_ := some ((b : Int) - (a : Int)),
                       objects := none, count := none } := by
      simp [QuerySet.getitem_slice, QuerySet.limit, QuerySet.offset,
        h1, h2, hane]
    refine ⟨_, hslice, ?_⟩
    have hbane : ¬(((b : Int) - (a : Int)) = 0) := by omega
    have htn : ((b : Int) - (a : Int)).toNat = b - a := by omega
    have hq : ({ qs with offset_ := some (a : Int),
                          limit_ := some ((b : Int) - (a : Int)),
                          objects := none,
                          count := none } : QuerySet V).get_select_rows =
        (qs.base.drop a).take (b - a) := by
      simp [QuerySet.get_select_rows, hsel, hane, hbane, htn]
    rw [as_list_fresh _ rfl, hq]
    have hbase := slice_base_eq qs hsel hoff a b hb
    simp [Option.map_some, pyslice_map, pyslice, hbase]

/-- C3 witness: the amended theorem applied to the concrete fresh two-row
view with the slice bounds 0 and 1. -/
theorem claim_c3_witness :
    qs_fresh.select = none ∧ qs_fresh.offset_ = none ∧
    qs_fresh.objects = none ∧ 0 < 1 ∧
    1 ≤ qs_fresh.get_select_rows.length ∧
    (∃ q, qs_fresh.getitem_slice ⟨some (0 : Int), some (1 : Int), none⟩ =
        some q ∧
      q.as_list = (qs_fresh.as_list).map (pyslice 0 1)) :=
  ⟨rfl, rfl, rfl, by decide, by decide,
   claim_c3_amended qs_fresh 0 1 rfl rfl rfl (by decide) (by decide)⟩

theorem projEqB_refl [DecidableEq V] (cols : List String) (r : Row V) :
    projEqB cols r r = true := by
  simp [projEqB]

/-- When the primary-key column is among the compared columns, SQL row
equality forces equal primary keys. -/
theorem projEqB_pk [DecidableEq V] {cols : List String} {x y : Row V}
    (hpk : "pk" ∈ cols) (h : projEqB cols x y = true) :
    x "pk" = y "pk" := by
  simp only [projEqB, List.all_eq_true] at h
  have := h "pk" hpk
  simpa using this

/-- A row list whose primary keys are pairwise distinct has no two
distinct positions related by SQL row equality. -/
theorem pairwise_not_projEq [DecidableEq V] (cols : List String)
    (hpk : "pk" ∈ cols) (l : List (Row V))
    (hnd : (l.map (fun r => r "pk")).Nodup) :
    l.Pairwise (fun x y => projEqB cols x y = false) := by
  simp only [List.Nodup, List.pairwise_map] at hnd
  refine hnd.imp ?_
  intro x y hxy
  cases hq : projEqB cols x y
  · rfl
  · exact absurd (projEqB_pk hpk hq) hxy

/-- On an operand whose rows have pairwise-distinct primary keys, the
duplicate elimination of `sqlIntersect` is a no-op: the intersection is
the first operand filtered to the rows matched in the second. -/
theorem sqlIntersect_pairwise [DecidableEq V] (cols : List String)
    (l₁ l₂ : List (Row V))
    (hnp : l₁.Pairwise (fun x y => projEqB cols x y = false)) :
    sqlIntersect cols l₁ l₂ =
      l₁.filter (fun r => l₂.any (fun r2 => projEqB cols r r2)) := by
  induction l₁ with
  | nil =>
    rw [sqlIntersect]
    rfl
  | cons r rs ih =>
    obtain ⟨hhead, htail⟩ := List.pairwise_cons.mp hnp
    have hfid : rs.filter (fun r2 => !projEqB cols r r2) = rs := by
      apply List.filter_eq_self.mpr
      intro x hx
      simp [hhead x hx]
    rw [sqlIntersect, hfid]
    by_cases hany : l₂.any (fun r2 => projEqB cols r r2)
    · rw [if_pos hany, ih htail]
      simp [List.filter_cons, hany]
    · rw [if_neg hany, ih htail]
      simp [List.filter_cons, hany]

/-- Against a table whose primary key determines the row, a row of the
table matches some row of `table.filter p₂` (by SQL row equality) exactly
when it satisfies `p₂` itself. -/
theorem any_projEq_eq [DecidableEq V] (cols : List String)
    (hpk : "pk" ∈ cols) (table : List (Row V))
    (hinj : ∀ x ∈ table, ∀ y ∈ table, x "pk" = y "pk" → x = y)
    (p₂ : Row V → Bool) (r : Row V) (hr : r ∈ table) :
    (table.filter p₂).any (fun r2 => projEqB cols r r2) = p₂ r := by
  cases hp2 : p₂ r
  · rw [List.any_eq_false]
    intro x hx
    obtain ⟨hxt, hpx⟩ := List.mem_filter.mp hx
    intro hproj
    have hx_eq : r = x := hinj r hr x hxt (projEqB_pk hpk hproj)
    rw [← hx_eq] at hpx
    rw [hpx] at hp2
    exact Bool.noConfusion hp2
  · rw [List.any_eq_true]
    exact ⟨r, List.mem_filter.mpr ⟨hr, hp2⟩, projEqB_refl cols r⟩

/-- C5: filtering by A and then calling `filter` with B on the resulting
view builds a second plan via the backend and returns the relational
intersection of the two plans' selects; over a table whose `pk` column is
a genuine primary key (pairwise-distinct values), the resulting view has
the same distinct primary-key set and the same length as directly
filtering by the conjunction of the two criteria. -/
theorem claim_c5 [DecidableEq V] (table : List (Row V))
    (cols : List String) (p₁ p₂ : Row V → Bool) (hpk : "pk" ∈ cols)
    (hnd : (table.map (fun r => r "pk")).Nodup) :
    ((backend_filter table cols p₁).filter p₂).select =
      some (sqlIntersect cols
        (backend_filter table cols p₁).get_select_rows
        (backend_filter table cols p₂).get_select_rows) ∧
    ((backend_filter table cols p₁).filter p₂).distinct_pks =
      (backend_filter table cols (fun r => p₁ r && p₂ r)).distinct_pks ∧
    (((backend_filter table cols p₁).filter p₂).length).1 =
      ((backend_filter table cols (fun r => p₁ r && p₂ r)).length).1 := by
  have hinj := List.inj_on_of_nodup_map hnd
  have hrows1 : (backend_filter table cols p₁).get_select_rows =
      table.filter p₁ := rfl
  have hrows2 : (backend_filter table cols p₂).get_select_rows =
      table.filter p₂ := rfl
  have hnd1 : ((table.filter p₁).map (fun r => r "pk")).Nodup :=
    hnd.sublist (List.Sublist.map _ (List.filter_sublist table))
  have hmain : sqlIntersect cols (table.filter p₁) (table.filter p₂) =
      table.filter (fun r => p₁ r && p₂ r) := by
    rw [sqlIntersect_pairwise cols _ _ (pairwise_not_projEq cols hpk _ hnd1)]
    rw [List.filter_filter]
    apply List.filter_congr
    intro r hr
    cases hp1 : p₁ r
    · simp
    · simp only [Bool.and_true, Bool.true_and]
      exact any_projEq_eq cols hpk table (fun x hx y hy => hinj hx hy)
        p₂ r hr
  have hchain : ((backend_filter table cols p₁).filter p₂).get_select_rows =
      table.filter (fun r => p₁ r && p₂ r) := by
    show sqlIntersect cols (table.filter p₁) (table.filter p₂) = _
    exact hmain
  refine ⟨rfl, ?_, ?_⟩
  · unfold QuerySet.distinct_pks
    rw [hchain]
    rfl
  · unfold QuerySet.length
    show (sqlIntersect cols (table.filter p₁) (table.filter p₂)).length = _
    rw [hmain]
    rfl

/-- C5 witness: a two-row table with distinct primary keys 0 and 1,
chaining a filter for pk < 2 with a filter for pk = 1. -/
theorem claim_c5_witness :
    ("pk" ∈ ["pk"]) ∧
    ((([(fun _ => 0), (fun _ => 1)] : List (Row Nat)).map
        (fun r => r "pk")).Nodup) ∧
    (((backend_filter ([(fun _ => 0), (fun _ => 1)] : List (Row Nat)) ["pk"]
        (fun r => decide (r "pk" < 2))).filter
          (fun r => decide (r "pk" = 1))).select =
      some (sqlIntersect ["pk"]
        (backend_filter ([(fun _ => 0), (fun _ => 1)] : List (Row Nat))
          ["pk"] (fun r => decide (r "pk" < 2))).get_select_rows
        (backend_filter ([(fun _ => 0), (fun _ => 1)] : List (Row Nat))
          ["pk"] (fun r => decide (r "pk" = 1))).get_select_rows) ∧
     ((backend_filter ([(fun _ => 0), (fun _ => 1)] : List (Row Nat)) ["pk"]
        (fun r => decide (r "pk" < 2))).filter
          (fun r => decide (r "pk" = 1))).distinct_pks =
      (backend_filter ([(fun _ => 0), (fun _ => 1)] : List (Row Nat)) ["pk"]
        (fun r => decide (r "pk" < 2) && decide (r "pk" = 1))).distinct_pks ∧
     ((((backend_filter ([(fun _ => 0), (fun _ => 1)] : List (Row Nat))
        ["pk"] (fun r => decide (r "pk" < 2))).filter
          (fun r => decide (r "pk" = 1))).length).1 =
      ((backend_filter ([(fun _ => 0), (fun _ => 1)] : List (Row Nat)) ["pk"]
        (fun r => decide (r "pk" < 2) &&
          decide (r "pk" = 1))).length).1)) :=
  ⟨by decide, by decide,
   claim_c5 ([(fun _ => 0), (fun _ => 1)] : List (Row Nat)) ["pk"]
     (fun r => decide (r "pk" < 2)) (fun r => decide (r "pk" = 1))
     (by decide) (by decide)⟩

end BlitzDB
